import Mathlib

/-!
Verification of the secure path sandbox and versioned text-edit subsystem of
the MCP-FileSystem-Golang server (repository PUBLIC-Golang-MCP-Servers).

The dispatch layer (cmd/server/main.go) is present in the sources and is
embedded faithfully below (`handleToolCall`, `serverHandlers`).  The packages
pkg/filesystem (PathSandbox / FileManager), pkg/editor (EditManager) and
pkg/mcp (Server registry) are not part of the available sources; their
operations are modelled from the specification, as marked in each doc comment.

Conventions of the embedding:
* Go strings are Lean `String`s; byte-level operations work on `String.data`.
* The filesystem is a state value `FS` (association list of files plus a list
  of directories); effectful Go methods become explicit state passing.
* Symlink resolution and lexical normalization (spec steps 1-3 of
  `Resolve`, including the deepest-existing-ancestor rule) are abstracted
  into an oracle `resolveFn : String → String` mapping a raw caller path to
  its fully resolved absolute form.
-/

/-- Splits a character list at `/` separators, accumulating the current
segment in reverse.  Structural-recursive counterpart of Go's path
splitting. -/
def splitSegsAux : List Char → List Char → List (List Char)
  | [], acc => [acc.reverse]
  | c :: rest, acc =>
      if c = '/' then acc.reverse :: splitSegsAux rest []
      else splitSegsAux rest (c :: acc)

/-- Path-segment decomposition of a path string: split on `/` and drop empty
segments (leading separator, duplicated separators, trailing separator). -/
def pathSegments (p : String) : List (List Char) :=
  (splitSegsAux p.data []).filter (fun s => !(s.isEmpty))

/-- Modelled from the spec: containment test of step 4 of `PathSandbox.Resolve`
(pkg/filesystem is absent from the sources) — the candidate path must be equal
to the root or have the root as a path-segment-boundary prefix, never a raw
string prefix. -/
def isWithinRoot (root p : String) : Bool :=
  (pathSegments root).isPrefixOf (pathSegments p)

/-- Typed error taxonomy of the service (spec section 7). -/
inductive FsError where
  | PathOutsideSandbox
  | NotFound
  | NotAFile
  | NotADirectory
  | AlreadyExists
  | IOError
  | NoMatch
  | AmbiguousMatch
  | InvalidLine
  | NoBackup
deriving DecidableEq, Repr

/-- Boolean success test for `Except` results. -/
def exceptIsOk {ε α : Type} : Except ε α → Bool
  | Except.ok _ => true
  | Except.error _ => false

/-- The filesystem state: textual files keyed by resolved absolute path, plus
the set of existing directories. -/
structure FS where
  files : List (String × String)
  dirs : List String
deriving DecidableEq, Repr

/-- The sandbox configuration: the administrator-supplied allowed roots. -/
structure Sandbox where
  allowedRoots : List String
deriving DecidableEq, Repr

/-- Outcome of a successful validation: the fully resolved path plus the
allowed root it falls under (spec section 3, ResolvedPath). -/
structure ResolvedPath where
  path : String
  root : String
deriving DecidableEq, Repr

/-- Modelled from the spec: the pure core of `PathSandbox.Resolve`
(pkg/filesystem is absent from the sources).  Steps 1-3 (absolutize,
normalize, resolve symlinks with the deepest-existing-ancestor rule) are the
oracle `resolveFn`; steps 4-5 compare the fully resolved path against every
allowed root at segment boundaries and fail with `PathOutsideSandbox`
otherwise. -/
def resolveCheck (sb : Sandbox) (resolveFn : String → String) (raw : String) :
    Except FsError ResolvedPath :=
  match sb.allowedRoots.find? (fun r => isWithinRoot r (resolveFn raw)) with
  | some r => Except.ok { path := resolveFn raw, root := r }
  | none => Except.error FsError.PathOutsideSandbox

/-- Modelled from the spec: `PathSandbox.Resolve` as a state-passing function;
validation reads the filesystem only through the resolution oracle and
performs no mutation, so the state component is threaded unchanged. -/
def Resolve (sb : Sandbox) (resolveFn : String → String) (fs : FS) (raw : String) :
    Except FsError ResolvedPath × FS :=
  (resolveCheck sb resolveFn raw, fs)

/-- Modelled from the spec: `FileManager.ValidatePath` as used by the dispatch
layer in main.go — validation through the sandbox, returning the resolved
path string. -/
def ValidatePath (sb : Sandbox) (resolveFn : String → String) (raw : String) :
    Except FsError String :=
  match resolveCheck sb resolveFn raw with
  | Except.ok rp => Except.ok rp.path
  | Except.error e => Except.error e

/-- Go's `filepath.Join` for two already clean components, modelled as
separator concatenation. -/
def goFilepathJoin (a b : String) : String := a ++ "/" ++ b

/-- Backup directory chosen by `main` (main.go line 40):
`filepath.Join(os.TempDir(), "mcp-filesystem-backups")`, as a function of the
OS temp directory. -/
def mainBackupDir (tempDir : String) : String :=
  goFilepathJoin tempDir "mcp-filesystem-backups"

/-- Example sandbox used by concrete witnesses. -/
def sandboxSrv : Sandbox := { allowedRoots := ["/srv/data"] }

/-- Example empty filesystem used by concrete witnesses. -/
def fs0 : FS := { files := [], dirs := [] }

/-- Splitting distributes over a separator: the segments accumulated before
the `/` close there and splitting continues on the remainder. -/
theorem splitSegsAux_append (y : List Char) :
    ∀ (x : List Char) (acc : List Char),
      splitSegsAux (x ++ '/' :: y) acc = splitSegsAux x acc ++ splitSegsAux y [] := by
  intro x
  induction x with
  | nil => intro acc; simp [splitSegsAux]
  | cons c rest ih =>
      intro acc
      simp only [List.cons_append, splitSegsAux]
      by_cases hc : c = '/'
      · simp [hc, ih]
      · simp [hc, ih]

/-- Segment decomposition of a join: the segments of `a ++ "/" ++ b` are the
segments of `a` followed by the segments of `b`. -/
theorem pathSegments_join (a b : String) :
    pathSegments (a ++ "/" ++ b) = pathSegments a ++ pathSegments b := by
  unfold pathSegments
  rw [String.data_append, String.data_append]
  have hs : ("/" : String).data = ['/'] := rfl
  rw [hs, List.append_assoc]
  simp only [List.singleton_append]
  rw [splitSegsAux_append b.data a.data, List.filter_append]

/-- Being a list prefix is the same as being equal or extending by a nonempty
tail. -/
theorem prefix_iff_eq_or_strict {α : Type} (r l : List α) :
    r <+: l ↔ r = l ∨ ∃ t, t ≠ [] ∧ l = r ++ t := by
  constructor
  · rintro ⟨t, rfl⟩
    cases t with
    | nil => left; simp
    | cons a t => right; exact ⟨a :: t, by simp, rfl⟩
  · rintro (rfl | ⟨t, _, rfl⟩)
    · exact List.prefix_refl r
    · exact ⟨t, rfl⟩

/-- Success of the sandbox check is exactly the existence of a matching
root. -/
theorem resolveCheck_isOk (sb : Sandbox) (f : String → String) (p : String) :
    exceptIsOk (resolveCheck sb f p) =
      (sb.allowedRoots.find? (fun r => isWithinRoot r (f p))).isSome := by
  unfold resolveCheck
  cases h : sb.allowedRoots.find? (fun r => isWithinRoot r (f p)) <;>
    simp [exceptIsOk]

/-- C1: for every caller-supplied path whose fully resolved form lies inside
no allowed root, `Resolve` fails with `PathOutsideSandbox` and the filesystem
state is returned unchanged (no mutation is performed by the failed
validation). -/
theorem resolve_outside_sandbox_fails (sb : Sandbox) (f : String → String)
    (fs : FS) (p : String)
    (h : ∀ r ∈ sb.allowedRoots, isWithinRoot r (f p) = false) :
    (Resolve sb f fs p).1 = Except.error FsError.PathOutsideSandbox ∧
      (Resolve sb f fs p).2 = fs := by
  refine ⟨?_, rfl⟩
  show resolveCheck sb f p = Except.error FsError.PathOutsideSandbox
  unfold resolveCheck
  have hnone : sb.allowedRoots.find? (fun r => isWithinRoot r (f p)) = none := by
    apply List.find?_eq_none.mpr
    intro r hr
    simp [h r hr]
  rw [hnone]

/-- Witness for C1: with allowed root `/srv/data`, resolving `/etc/passwd`
fails with `PathOutsideSandbox` and leaves the filesystem untouched. -/
theorem resolve_outside_sandbox_fails_witness :
    (Resolve sandboxSrv (fun s => s) fs0 "/etc/passwd").1 =
        Except.error FsError.PathOutsideSandbox ∧
      (Resolve sandboxSrv (fun s => s) fs0 "/etc/passwd").2 = fs0 :=
  resolve_outside_sandbox_fails sandboxSrv (fun s => s) fs0 "/etc/passwd"
    (by decide)

/-- C4: `Resolve` accepts exactly the paths whose fully resolved form is equal
to some allowed root or extends some allowed root at a path-segment boundary;
in particular `/alloweddir-evil` is rejected against root `/alloweddir`
although the root is a raw string prefix of it. -/
theorem resolve_segment_boundary (sb : Sandbox) (f : String → String)
    (fs : FS) (p : String) :
    (exceptIsOk (Resolve sb f fs p).1 = true ↔
      ∃ r ∈ sb.allowedRoots,
        pathSegments r = pathSegments (f p) ∨
          ∃ t, t ≠ [] ∧ pathSegments (f p) = pathSegments r ++ t) ∧
    exceptIsOk (Resolve { allowedRoots := ["/alloweddir"] } (fun s => s) fs0
        "/alloweddir-evil").1 = false ∧
    List.isPrefixOf "/alloweddir".data "/alloweddir-evil".data = true := by
  refine ⟨?_, by decide, by decide⟩
  show exceptIsOk (resolveCheck sb f p) = true ↔ _
  rw [resolveCheck_isOk, List.find?_isSome]
  constructor
  · rintro ⟨r, hr, hw⟩
    refine ⟨r, hr, ?_⟩
    have hw2 : (pathSegments r).isPrefixOf (pathSegments (f p)) = true := hw
    have hpre : pathSegments r <+: pathSegments (f p) :=
      List.isPrefixOf_iff_prefix.mp hw2
    exact (prefix_iff_eq_or_strict _ _).mp hpre
  · rintro ⟨r, hr, hcase⟩
    refine ⟨r, hr, ?_⟩
    show isWithinRoot r (f p) = true
    unfold isWithinRoot
    apply List.isPrefixOf_iff_prefix.mpr
    exact (prefix_iff_eq_or_strict _ _).mpr hcase

/-- C3 counterexample: `main` places the backup store at
`filepath.Join(os.TempDir(), "mcp-filesystem-backups")` without any check
against the configured roots; with the common Linux temp directory `/tmp` and
the admissible configuration `allowedRoots = ["/tmp"]`, the backup directory
is a strict descendant of an allowed root, so the claim fails. -/
theorem backup_dir_escape_counterexample :
    ("/tmp" ∈ ({ allowedRoots := ["/tmp"] } : Sandbox).allowedRoots) ∧
      isWithinRoot "/tmp" (mainBackupDir "/tmp") = true ∧
      mainBackupDir "/tmp" ≠ "/tmp" := by
  refine ⟨by decide, by decide, by decide⟩

/-- C3 amended: the backup directory lies outside every allowed root provided
no allowed root contains the OS temp directory and no allowed root is the
backup directory itself; the code performs no such check, so this holds only
for configurations satisfying that side condition. -/
theorem backup_dir_outside_roots (tempDir : String) (roots : List String)
    (h : ∀ r ∈ roots, isWithinRoot r tempDir = false ∧
      pathSegments r ≠ pathSegments (mainBackupDir tempDir)) :
    ∀ r ∈ roots, isWithinRoot r (mainBackupDir tempDir) = false := by
  intro r hr
  obtain ⟨h1, h2⟩ := h r hr
  have hw : pathSegments "mcp-filesystem-backups" =
      ["mcp-filesystem-backups".data] := by decide
  have hjoin : pathSegments (mainBackupDir tempDir) =
      pathSegments tempDir ++ ["mcp-filesystem-backups".data] := by
    unfold mainBackupDir goFilepathJoin
    rw [pathSegments_join, hw]
  cases hb : isWithinRoot r (mainBackupDir tempDir) with
  | false => rfl
  | true =>
      exfalso
      have hb2 : (pathSegments r).isPrefixOf
          (pathSegments (mainBackupDir tempDir)) = true := hb
      have hpre : pathSegments r <+: pathSegments (mainBackupDir tempDir) :=
        List.isPrefixOf_iff_prefix.mp hb2
      rw [hjoin] at hpre
      rcases List.prefix_concat_iff.mp hpre with heq | hpre2
      · apply h2
        rw [hjoin, heq]
      · have : isWithinRoot r tempDir = true := by
          unfold isWithinRoot
          exact List.isPrefixOf_iff_prefix.mpr hpre2
        rw [h1] at this
        cases this

/-- Witness for the amended C3: with temp directory `/tmp` and allowed root
`/home/user/docs`, the backup directory is outside the root. -/
theorem backup_dir_outside_roots_witness :
    isWithinRoot "/home/user/docs" (mainBackupDir "/tmp") = false :=
  backup_dir_outside_roots "/tmp" ["/home/user/docs"] (by decide)
    "/home/user/docs" (by decide)

/-- Association-list lookup keyed by path strings (first match wins). -/
def lookupA {β : Type} (k : String) : List (String × β) → Option β
  | [] => none
  | (k', v) :: rest => if k' = k then some v else lookupA k rest

/-- Association-list removal of every entry with the given key. -/
def eraseA {β : Type} (k : String) (l : List (String × β)) : List (String × β) :=
  l.filter (fun e => !(e.1 == k))

/-- Association-list update: bind a key to a value, replacing any previous
binding (at most one live entry per key, as the backup store requires). -/
def setA {β : Type} (k : String) (v : β) (l : List (String × β)) :
    List (String × β) :=
  (k, v) :: eraseA k l

/-- Looking up a key just set yields the new value. -/
theorem lookupA_setA_self {β : Type} (k : String) (v : β) (l : List (String × β)) :
    lookupA k (setA k v l) = some v := by
  simp [setA, lookupA]

/-- Looking up a key just erased yields nothing. -/
theorem lookupA_eraseA_self {β : Type} (k : String) (l : List (String × β)) :
    lookupA k (eraseA k l) = none := by
  induction l with
  | nil => rfl
  | cons e rest ih =>
      obtain ⟨k', v⟩ := e
      by_cases he : k' = k
      · simp only [eraseA, List.filter_cons] at ih ⊢
        simp [he, ih]
      · simp only [eraseA, List.filter_cons] at ih ⊢
        simp [he, lookupA, ih]

/-- Counts the occurrences of `pat` starting at each position of `text`
(exact substring occurrences). -/
def countOcc (text pat : List Char) : Nat :=
  match text with
  | [] => 0
  | _ :: rest => (if pat.isPrefixOf text then 1 else 0) + countOcc rest pat

/-- Replaces the leftmost occurrence of `pat` in `text` by `rep`; returns
`text` unchanged when there is no occurrence. -/
def replaceFirst (text pat rep : List Char) : List Char :=
  match text with
  | [] => []
  | c :: rest =>
      if pat.isPrefixOf text then rep ++ text.drop pat.length
      else c :: replaceFirst rest pat rep

/-- Splits a character list into lines at newline characters; a content with
no newline is a single line, and every newline separates two lines. -/
def splitOnNl : List Char → List (List Char)
  | [] => [[]]
  | c :: rest =>
      match splitOnNl rest with
      | [] => [[]]
      | l :: ls => if c = '\n' then [] :: l :: ls else (c :: l) :: ls

/-- Joins lines back with newline separators (inverse of `splitOnNl`). -/
def joinNl : List (List Char) → List Char
  | [] => []
  | l :: ls =>
      match ls with
      | [] => l
      | _ :: _ => l ++ '\n' :: joinNl ls

/-- Unfolding equation for `splitOnNl` on a cons cell, given the split of the
tail. -/
theorem splitOnNl_cons_eq (c : Char) (rest : List Char) (l : List Char)
    (ls : List (List Char)) (h : splitOnNl rest = l :: ls) :
    splitOnNl (c :: rest) =
      if c = '\n' then [] :: l :: ls else (c :: l) :: ls := by
  simp only [splitOnNl, h]

/-- Unfolding equation for `joinNl` on a single line. -/
theorem joinNl_single (l : List Char) : joinNl [l] = l := rfl

/-- Unfolding equation for `joinNl` on two or more lines. -/
theorem joinNl_cons_cons (l m : List Char) (ls : List (List Char)) :
    joinNl (l :: m :: ls) = l ++ '\n' :: joinNl (m :: ls) := rfl

/-- `splitOnNl` never returns the empty list of lines. -/
theorem splitOnNl_ne_nil (l : List Char) : splitOnNl l ≠ [] := by
  cases l with
  | nil => simp [splitOnNl]
  | cons c rest =>
      cases hs : splitOnNl rest with
      | nil => simp [splitOnNl, hs]
      | cons a as =>
          rw [splitOnNl_cons_eq c rest a as hs]
          by_cases hc : c = '\n' <;> simp [hc]

/-- Joining the split lines reconstructs the original content. -/
theorem joinNl_splitOnNl (l : List Char) : joinNl (splitOnNl l) = l := by
  induction l with
  | nil => rfl
  | cons c rest ih =>
      cases hs : splitOnNl rest with
      | nil => exact absurd hs (splitOnNl_ne_nil rest)
      | cons a as =>
          rw [hs] at ih
          rw [splitOnNl_cons_eq c rest a as hs]
          by_cases hc : c = '\n'
          · subst hc
            rw [if_pos rfl, joinNl_cons_cons, ih]
            rfl
          · rw [if_neg hc]
            cases as with
            | nil =>
                rw [joinNl_single]
                rw [joinNl_single] at ih
                rw [ih]
            | cons b bs =>
                rw [joinNl_cons_cons] at ih
                rw [joinNl_cons_cons, List.cons_append, ih]

/-- No line produced by `splitOnNl` contains a newline character. -/
theorem splitOnNl_no_newline (l : List Char) :
    ∀ s ∈ splitOnNl l, '\n' ∉ s := by
  induction l with
  | nil =>
      intro s hs
      simp [splitOnNl] at hs
      simp [hs]
  | cons c rest ih =>
      intro s hs
      cases hsplit : splitOnNl rest with
      | nil => exact absurd hsplit (splitOnNl_ne_nil rest)
      | cons a as =>
          rw [splitOnNl_cons_eq c rest a as hsplit] at hs
          rw [hsplit] at ih
          by_cases hc : c = '\n'
          · rw [if_pos hc] at hs
            simp only [List.mem_cons] at hs
            rcases hs with h1 | h2 | h3
            · simp [h1]
            · exact ih s (by simp [h2])
            · exact ih s (List.mem_cons_of_mem a h3)
          · rw [if_neg hc] at hs
            simp only [List.mem_cons] at hs
            rcases hs with h1 | h2
            · subst h1
              intro hmem
              rcases List.mem_cons.mp hmem with hx | hmem2
              · exact hc hx.symm
              · exact ih a (List.mem_cons_self a as) hmem2
            · exact ih s (List.mem_cons_of_mem a h2)

/-- Splitting a newline-free line yields that line alone. -/
theorem splitOnNl_no_nl_single (l : List Char) (h : '\n' ∉ l) :
    splitOnNl l = [l] := by
  induction l with
  | nil => rfl
  | cons c rest ih =>
      have hc : c ≠ '\n' := by
        intro hcc
        exact h (by simp [hcc])
      have hrest : '\n' ∉ rest := by
        intro hm
        exact h (by simp [hm])
      rw [splitOnNl_cons_eq c rest rest [] (ih hrest)]
      simp [hc]

/-- Splitting a newline-free line followed by a newline and a remainder
prepends that line to the split of the remainder. -/
theorem splitOnNl_append_nl (l t : List Char) (h : '\n' ∉ l) :
    splitOnNl (l ++ '\n' :: t) = l :: splitOnNl t := by
  induction l with
  | nil =>
      cases hs : splitOnNl t with
      | nil => exact absurd hs (splitOnNl_ne_nil t)
      | cons a as =>
          rw [List.nil_append, splitOnNl_cons_eq '\n' t a as hs]
          simp [hs]
  | cons c rest ih =>
      have hc : c ≠ '\n' := by
        intro hcc
        exact h (by simp [hcc])
      have hrest : '\n' ∉ rest := by
        intro hm
        exact h (by simp [hm])
      have hih := ih hrest
      cases hs : splitOnNl t with
      | nil => exact absurd hs (splitOnNl_ne_nil t)
      | cons a as =>
          rw [hs] at hih
          rw [List.cons_append,
            splitOnNl_cons_eq c (rest ++ '\n' :: t) rest (a :: as) hih]
          simp [hc, hs]

/-- Splitting a join of nonempty, newline-free lines recovers the lines. -/
theorem splitOnNl_joinNl (ls : List (List Char)) (hne : ls ≠ [])
    (h : ∀ s ∈ ls, '\n' ∉ s) : splitOnNl (joinNl ls) = ls := by
  induction ls with
  | nil => exact absurd rfl hne
  | cons a as ih =>
      cases as with
      | nil =>
          rw [joinNl_single]
          exact splitOnNl_no_nl_single a (h a (by simp))
      | cons b bs =>
          rw [joinNl_cons_cons]
          rw [splitOnNl_append_nl a (joinNl (b :: bs)) (h a (by simp))]
          rw [ih (by simp) (fun s hs => h s (by simp [hs]))]

/-- Human-readable message for each typed error (spec section 7); the
`PathOutsideSandbox` message does not reveal the resolved target. -/
def errText : FsError → String
  | FsError.PathOutsideSandbox => "access denied - path outside allowed directories"
  | FsError.NotFound => "file not found"
  | FsError.NotAFile => "not a file"
  | FsError.NotADirectory => "not a directory"
  | FsError.AlreadyExists => "destination already exists"
  | FsError.IOError => "io error"
  | FsError.NoMatch => "no match found for replacement text"
  | FsError.AmbiguousMatch => "multiple matches found for replacement text"
  | FsError.InvalidLine => "invalid line number"
  | FsError.NoBackup => "no backup found for file"

/-- Modelled from the spec: `FileManager.ReadFile` (pkg/filesystem is absent
from the sources) — validate through the sandbox, fail `NotAFile` on a
directory, `NotFound` on a missing file, else return the full content. -/
def ReadFile (sb : Sandbox) (f : String → String) (fs : FS) (path : String) :
    Except FsError String :=
  match resolveCheck sb f path with
  | Except.error e => Except.error e
  | Except.ok rp =>
      if fs.dirs.contains rp.path then Except.error FsError.NotAFile
      else
        match lookupA rp.path fs.files with
        | some c => Except.ok c
        | none => Except.error FsError.NotFound

/-- Modelled from the spec: `FileManager.WriteFile` (pkg/filesystem is absent
from the sources) — validate the target through the sandbox (the
deepest-existing-ancestor rule of the resolution oracle covers a
not-yet-existing leaf), then create or overwrite the file. -/
def WriteFile (sb : Sandbox) (f : String → String) (fs : FS)
    (path content : String) : Except FsError FS :=
  match resolveCheck sb f path with
  | Except.error e => Except.error e
  | Except.ok rp =>
      if fs.dirs.contains rp.path then Except.error FsError.IOError
      else Except.ok { fs with files := setA rp.path content fs.files }

/-- Per-path outcome string of a multi-file read: the content on success, an
error label on failure, as produced for each requested path. -/
def readOneOutcome (sb : Sandbox) (f : String → String) (fs : FS)
    (path : String) : String :=
  match ReadFile sb f fs path with
  | Except.ok c => path ++ ":\n" ++ c
  | Except.error e => path ++ ": Error - " ++ errText e

/-- Modelled from the spec: `FileManager.ReadMultipleFiles` (pkg/filesystem is
absent from the sources) — each path is read independently and a per-path
outcome is produced for every requested path; a failure on one path never
aborts the others. -/
def ReadMultipleFiles (sb : Sandbox) (f : String → String) (fs : FS)
    (paths : List String) : List String :=
  paths.map (readOneOutcome sb f fs)

/-- Modelled from the spec: `FileManager.CreateDirectory` (pkg/filesystem is
absent from the sources) — validate, succeed idempotently when the directory
already exists, fail when a file occupies the path. -/
def CreateDirectory (sb : Sandbox) (f : String → String) (fs : FS)
    (path : String) : Except FsError FS :=
  match resolveCheck sb f path with
  | Except.error e => Except.error e
  | Except.ok rp =>
      if fs.dirs.contains rp.path then Except.ok fs
      else if (lookupA rp.path fs.files).isSome then
        Except.error FsError.AlreadyExists
      else Except.ok { fs with dirs := rp.path :: fs.dirs }

/-- Direct-child test at segment granularity, used to render directory
listings. -/
def isDirectChild (d p : String) : Bool :=
  isWithinRoot d p && ((pathSegments p).length == (pathSegments d).length + 1)

/-- Modelled from the spec: `FileManager.ListDirectory` (pkg/filesystem is
absent from the sources) — validate, fail on a non-directory, return the
entries tagged as file or directory. -/
def ListDirectory (sb : Sandbox) (f : String → String) (fs : FS)
    (path : String) : Except FsError String :=
  match resolveCheck sb f path with
  | Except.error e => Except.error e
  | Except.ok rp =>
      if fs.dirs.contains rp.path then
        Except.ok (String.intercalate "\n"
          ((fs.dirs.filter (isDirectChild rp.path)).map
              (fun d => "[DIR] " ++ d) ++
            ((fs.files.map Prod.fst).filter (isDirectChild rp.path)).map
              (fun q => "[FILE] " ++ q)))
      else Except.error FsError.NotADirectory

/-- Modelled from the spec: `FileManager.MoveFile` (pkg/filesystem is absent
from the sources) — both endpoints validate inside the sandbox, the
destination must not exist, the source must exist.  Directory moves are
abstracted out of the model (only file entries move). -/
def MoveFile (sb : Sandbox) (f : String → String) (fs : FS)
    (src dst : String) : Except FsError FS :=
  match resolveCheck sb f src with
  | Except.error e => Except.error e
  | Except.ok rs =>
      match resolveCheck sb f dst with
      | Except.error e => Except.error e
      | Except.ok rd =>
          if (lookupA rd.path fs.files).isSome || fs.dirs.contains rd.path then
            Except.error FsError.AlreadyExists
          else
            match lookupA rs.path fs.files with
            | some c =>
                Except.ok { fs with
                  files := setA rd.path c (eraseA rs.path fs.files) }
            | none => Except.error FsError.NotFound

/-- Case-insensitive substring test on path strings. -/
def containsCI (s pat : String) : Bool :=
  countOcc (s.toLower.data) (pat.toLower.data) != 0

/-- Modelled from the spec: `SearchFiles` (pkg/filesystem is absent from the
sources) — validate the starting root, then return every entry under it whose
name matches case-insensitively; every visited entry is itself re-validated so
a symlinked subdirectory cannot escape the walk. -/
def SearchFiles (sb : Sandbox) (f : String → String) (fs : FS)
    (root pat : String) : Except FsError (List String) :=
  match resolveCheck sb f root with
  | Except.error e => Except.error e
  | Except.ok rr =>
      Except.ok (((fs.files.map Prod.fst) ++ fs.dirs).filter (fun q =>
        isWithinRoot rr.path q && exceptIsOk (resolveCheck sb f q) &&
          containsCI q pat))

/-- Modelled from the spec: `FileManager.GetFileInfo` (pkg/filesystem is
absent from the sources) — validate, then return a readable summary;
modification time and permissions are outside the model. -/
def GetFileInfo (sb : Sandbox) (f : String → String) (fs : FS)
    (path : String) : Except FsError String :=
  match resolveCheck sb f path with
  | Except.error e => Except.error e
  | Except.ok rp =>
      if fs.dirs.contains rp.path then Except.ok ("directory: " ++ rp.path)
      else
        match lookupA rp.path fs.files with
        | some c =>
            Except.ok ("file: " ++ rp.path ++ " size " ++ toString c.length)
        | none => Except.error FsError.NotFound

/-- Modelled from the spec: `FileManager.ListAllowedDirectories`
(pkg/filesystem is absent from the sources) — returns the configured roots
verbatim, with no path validation. -/
def ListAllowedDirectories (sb : Sandbox) : String :=
  String.intercalate "\n" sb.allowedRoots

/-- The whole server state: the filesystem plus the EditManager backup store
(one backup per canonical path). -/
structure EMState where
  fs : FS
  backups : List (String × String)
deriving DecidableEq, Repr

/-- Modelled from the spec: `EditManager.StrReplace` (pkg/editor is absent
from the sources) — read the current content, count the exact substring
occurrences of `oldS`; fail `NoMatch` on zero and `AmbiguousMatch` on more
than one, leaving the state untouched; on exactly one, back up the pre-edit
content (replacing any previous backup for the path) and write the content
with the single occurrence substituted. -/
def StrReplace (st : EMState) (path oldS newS : String) :
    Except FsError Unit × EMState :=
  match lookupA path st.fs.files with
  | none => (Except.error FsError.NotFound, st)
  | some content =>
      let n := countOcc content.data oldS.data
      if n = 0 then (Except.error FsError.NoMatch, st)
      else if 1 < n then (Except.error FsError.AmbiguousMatch, st)
      else
        (Except.ok (),
          { fs := { st.fs with
              files := setA path
                (String.mk (replaceFirst content.data oldS.data newS.data))
                st.fs.files },
            backups := setA path content st.backups })

/-- Modelled from the spec: `EditManager.Insert` (pkg/editor is absent from
the sources; the source method name `Insert` collides with a core Lean name,
so it is embedded as `InsertLine`) — read the content, split into lines; the 1-based line number is
rejected with `InvalidLine` exactly when below 1 and otherwise clamped to
`lineCount + 1`; back up the pre-edit content, insert the text as a new line
at the clamped position and shift the following lines down. -/
def InsertLine (st : EMState) (path : String) (lineNumber : Int) (text : String) :
    Except FsError Unit × EMState :=
  match lookupA path st.fs.files with
  | none => (Except.error FsError.NotFound, st)
  | some content =>
      if lineNumber < 1 then (Except.error FsError.InvalidLine, st)
      else
        let lines := splitOnNl content.data
        let pos : Nat := min lineNumber.toNat (lines.length + 1)
        let newLines := lines.take (pos - 1) ++ [text.data] ++ lines.drop (pos - 1)
        (Except.ok (),
          { fs := { st.fs with
              files := setA path (String.mk (joinNl newLines)) st.fs.files },
            backups := setA path content st.backups })

/-- Modelled from the spec: `EditManager.UndoEdit` (pkg/editor is absent from
the sources) — fail `NoBackup` when no backup exists for the path; otherwise
overwrite the file with the backed-up content and remove the backup entry
(single-level undo). -/
def UndoEdit (st : EMState) (path : String) : Except FsError Unit × EMState :=
  match lookupA path st.backups with
  | none => (Except.error FsError.NoBackup, st)
  | some content =>
      (Except.ok (),
        { fs := { st.fs with files := setA path content st.fs.files },
          backups := eraseA path st.backups })

/-- A parsed tool invocation: the operation name of the `switch` in
`handleToolCall` (main.go) together with its already-parsed typed arguments
(the per-tool `Parse...Args` validation happens before dispatch reaches the
branches embedded here; a parse failure returns an error response before any
path handling). -/
inductive ToolCall where
  | readFile (path : String)
  | readMultipleFiles (paths : List String)
  | writeFile (path content : String)
  | createDirectory (path : String)
  | listDirectory (path : String)
  | moveFile (src dst : String)
  | searchFiles (path pat : String)
  | getFileInfo (path : String)
  | listAllowedDirectories
  | strReplace (path oldS newS : String)
  | insert (path : String) (lineNumber : Int) (text : String)
  | undoEdit (path : String)
  | unknown (name : String)

/-- One text block of a tool response (mcp.ContentItem). -/
structure ContentItem where
  type : String
  text : String
deriving DecidableEq, Repr

/-- A tool-call response: content blocks plus the error flag
(mcp.CallToolResponse). -/
structure CallToolResponse where
  content : List ContentItem
  IsError : Bool
deriving DecidableEq, Repr

/-- Successful single-text-block response, as built by every branch of
`handleToolCall`. -/
def textResponse (t : String) : CallToolResponse :=
  { content := [{ type := "text", text := t }], IsError := false }

/-- Error response built by `createErrorResponse` (main.go line 384). -/
def createErrorResponse (message : String) : CallToolResponse :=
  { content := [{ type := "text", text := "Error: " ++ message }],
    IsError := true }

/-- Record of one invocation of an EditManager method, used to observe which
paths reach EditManager. -/
inductive EMCall where
  | strReplace (path oldS newS : String)
  | insert (path : String) (lineNumber : Int) (text : String)
  | undoEdit (path : String)
deriving DecidableEq, Repr

/-- The (validated) path an EditManager invocation was made with. -/
def EMCall.path : EMCall → String
  | EMCall.strReplace p _ _ => p
  | EMCall.insert p _ _ => p
  | EMCall.undoEdit p => p

/-- The raw path argument a tool call hands to EditManager, when the tool is
one of the three editor tools. -/
def editPathArg : ToolCall → Option String
  | ToolCall.strReplace p _ _ => some p
  | ToolCall.insert p _ _ => some p
  | ToolCall.undoEdit p => some p
  | _ => none

/-- Result of dispatching one tool call: the response, the server state after
the call, and the trace of EditManager invocations made while handling it. -/
structure DispatchResult where
  response : CallToolResponse
  state : EMState
  emCalls : List EMCall
deriving Repr

/-- Embedding of `handleToolCall` (main.go lines 150-381): the switch over the
tool name; filesystem tools go through the FileManager wrappers (each of which
validates internally), the three editor tools validate the path through the
sandbox first and hand only a successfully validated path to EditManager, and
an unknown tool name yields an error response. -/
def handleToolCall (sb : Sandbox) (f : String → String) (st : EMState) :
    ToolCall → DispatchResult
  | ToolCall.readFile path =>
      match ReadFile sb f st.fs path with
      | Except.error e =>
          { response := createErrorResponse (errText e), state := st,
            emCalls := [] }
      | Except.ok content =>
          { response := textResponse content, state := st, emCalls := [] }
  | ToolCall.readMultipleFiles paths =>
      { response := textResponse
          (String.intercalate "\n\n" (ReadMultipleFiles sb f st.fs paths)),
        state := st, emCalls := [] }
  | ToolCall.writeFile path content =>
      match WriteFile sb f st.fs path content with
      | Except.error e =>
          { response := createErrorResponse (errText e), state := st,
            emCalls := [] }
      | Except.ok fs2 =>
          { response := textResponse ("Successfully wrote to " ++ path),
            state := { st with fs := fs2 }, emCalls := [] }
  | ToolCall.createDirectory path =>
      match CreateDirectory sb f st.fs path with
      | Except.error e =>
          { response := createErrorResponse (errText e), state := st,
            emCalls := [] }
      | Except.ok fs2 =>
          { response := textResponse
              ("Successfully created directory " ++ path),
            state := { st with fs := fs2 }, emCalls := [] }
  | ToolCall.listDirectory path =>
      match ListDirectory sb f st.fs path with
      | Except.error e =>
          { response := createErrorResponse (errText e), state := st,
            emCalls := [] }
      | Except.ok listing =>
          { response := textResponse listing, state := st, emCalls := [] }
  | ToolCall.moveFile src dst =>
      match MoveFile sb f st.fs src dst with
      | Except.error e =>
          { response := createErrorResponse (errText e), state := st,
            emCalls := [] }
      | Except.ok fs2 =>
          { response := textResponse
              ("Successfully moved " ++ src ++ " to " ++ dst),
            state := { st with fs := fs2 }, emCalls := [] }
  | ToolCall.searchFiles path pat =>
      match SearchFiles sb f st.fs path pat with
      | Except.error e =>
          { response := createErrorResponse (errText e), state := st,
            emCalls := [] }
      | Except.ok results =>
          { response := textResponse
              (if results.length > 0 then
                toString results.length ++ " matches found:\n" ++
                  String.intercalate "\n" results
              else "No matches found"),
            state := st, emCalls := [] }
  | ToolCall.getFileInfo path =>
      match GetFileInfo sb f st.fs path with
      | Except.error e =>
          { response := createErrorResponse (errText e), state := st,
            emCalls := [] }
      | Except.ok info =>
          { response := textResponse info, state := st, emCalls := [] }
  | ToolCall.listAllowedDirectories =>
      { response := textResponse (ListAllowedDirectories sb), state := st,
        emCalls := [] }
  | ToolCall.strReplace path oldS newS =>
      match ValidatePath sb f path with
      | Except.error e =>
          { response := createErrorResponse (errText e), state := st,
            emCalls := [] }
      | Except.ok validPath =>
          match StrReplace st validPath oldS newS with
          | (Except.error e, st2) =>
              { response := createErrorResponse (errText e), state := st2,
                emCalls := [EMCall.strReplace validPath oldS newS] }
          | (Except.ok _, st2) =>
              { response := textResponse
                  ("Successfully replaced text in " ++ path),
                state := st2,
                emCalls := [EMCall.strReplace validPath oldS newS] }
  | ToolCall.insert path lineNumber text =>
      match ValidatePath sb f path with
      | Except.error e =>
          { response := createErrorResponse (errText e), state := st,
            emCalls := [] }
      | Except.ok validPath =>
          match InsertLine st validPath lineNumber text with
          | (Except.error e, st2) =>
              { response := createErrorResponse (errText e), state := st2,
                emCalls := [EMCall.insert validPath lineNumber text] }
          | (Except.ok _, st2) =>
              { response := textResponse
                  ("Successfully inserted text at line " ++
                    toString lineNumber ++ " in " ++ path),
                state := st2,
                emCalls := [EMCall.insert validPath lineNumber text] }
  | ToolCall.undoEdit path =>
      match ValidatePath sb f path with
      | Except.error e =>
          { response := createErrorResponse (errText e), state := st,
            emCalls := [] }
      | Except.ok validPath =>
          match UndoEdit st validPath with
          | (Except.error e, st2) =>
              { response := createErrorResponse (errText e), state := st2,
                emCalls := [EMCall.undoEdit validPath] }
          | (Except.ok _, st2) =>
              { response := textResponse
                  ("Successfully undid last edit to " ++ path),
                state := st2,
                emCalls := [EMCall.undoEdit validPath] }
  | ToolCall.unknown name =>
      { response := createErrorResponse ("Unknown tool: " ++ name),
        state := st, emCalls := [] }

/-- Names of the tools advertised by `tools/list` (the filesystem tool
definitions followed by the editor tool definitions, main.go lines 86-123). -/
def toolNames : List String :=
  ["read_file", "read_multiple_files", "write_file", "create_directory",
   "list_directory", "move_file", "search_files", "get_file_info",
   "list_allowed_directories", "str_replace", "insert", "undo_edit"]

/-- A registered request handler of the mcp.Server: either one of the two
direct closures built in `setupServerHandlers`, or the backward-compatibility
closure that looks up the handler registered for the modern method name and
invokes it (main.go lines 125-129 and 142-146). -/
inductive HandlerSpec where
  | listTools
  | callTool
  | delegate (target : String)
deriving DecidableEq, Repr

/-- The handler registry populated by `setupServerHandlers` (main.go lines
84-147), in registration order. -/
def serverHandlers : List (String × HandlerSpec) :=
  [("tools/list", HandlerSpec.listTools),
   ("list_tools", HandlerSpec.delegate "tools/list"),
   ("tools/call", HandlerSpec.callTool),
   ("call_tool", HandlerSpec.delegate "tools/call")]

/-- Outcome of one JSON-RPC method dispatch. -/
inductive MethodResult where
  | toolsList (names : List String)
  | toolCall (r : DispatchResult)

/-- Runs one registered handler: a delegate closure performs
`server.GetHandler(target)` at invocation time and invokes the result;
`tools/list` ignores the params. -/
def runHandlerSpec (sb : Sandbox) (f : String → String) (st : EMState)
    (params : ToolCall) : HandlerSpec → Option MethodResult
  | HandlerSpec.listTools => some (MethodResult.toolsList toolNames)
  | HandlerSpec.callTool =>
      some (MethodResult.toolCall (handleToolCall sb f st params))
  | HandlerSpec.delegate target =>
      match lookupA target serverHandlers with
      | some HandlerSpec.listTools => some (MethodResult.toolsList toolNames)
      | some HandlerSpec.callTool =>
          some (MethodResult.toolCall (handleToolCall sb f st params))
      | some (HandlerSpec.delegate _) => none
      | none => none

/-- Method-level dispatch of the server: look up the registered handler for
the method name and run it on the params. -/
def dispatchMethod (sb : Sandbox) (f : String → String) (st : EMState)
    (method : String) (params : ToolCall) : Option MethodResult :=
  match lookupA method serverHandlers with
  | some hs => runHandlerSpec sb f st params hs
  | none => none

/-- A content with exactly one occurrence of `pat` decomposes around it, and
`replaceFirst` substitutes precisely that occurrence. -/
theorem countOcc_one_replace (pat rep : List Char) :
    ∀ l : List Char, countOcc l pat = 1 →
      ∃ pre post, l = pre ++ pat ++ post ∧
        replaceFirst l pat rep = pre ++ rep ++ post := by
  intro l
  induction l with
  | nil => intro h; simp [countOcc] at h
  | cons c rest ih =>
      intro h
      by_cases hp : pat.isPrefixOf (c :: rest) = true
      · obtain ⟨t, ht⟩ : pat <+: c :: rest := List.isPrefixOf_iff_prefix.mp hp
        refine ⟨[], t, ?_, ?_⟩
        · simp [← ht]
        · show (if pat.isPrefixOf (c :: rest) then
              rep ++ (c :: rest).drop pat.length
            else c :: replaceFirst rest pat rep) = [] ++ rep ++ t
          rw [if_pos hp, ← ht, List.drop_left]
          simp
      · have hcount : countOcc (c :: rest) pat =
            (if pat.isPrefixOf (c :: rest) then 1 else 0) + countOcc rest pat := rfl
        rw [hcount, if_neg hp, Nat.zero_add] at h
        obtain ⟨pre, post, h1, h2⟩ := ih h
        refine ⟨c :: pre, post, ?_, ?_⟩
        · simp [h1]
        · show (if pat.isPrefixOf (c :: rest) then
              rep ++ (c :: rest).drop pat.length
            else c :: replaceFirst rest pat rep) = (c :: pre) ++ rep ++ post
          rw [if_neg hp, h2]
          simp

/-- C5: with the current content of the file at `path`, `StrReplace` fails
with `NoMatch` on zero occurrences of `oldS` and with `AmbiguousMatch` on two
or more, in both cases returning the state unchanged; with exactly one
occurrence it succeeds and the stored content is the original with that
single occurrence replaced by `newS`. -/
theorem strreplace_cases (st : EMState) (path oldS newS content : String)
    (hc : lookupA path st.fs.files = some content) :
    (countOcc content.data oldS.data = 0 →
        StrReplace st path oldS newS = (Except.error FsError.NoMatch, st)) ∧
    (1 < countOcc content.data oldS.data →
        StrReplace st path oldS newS =
          (Except.error FsError.AmbiguousMatch, st)) ∧
    (countOcc content.data oldS.data = 1 →
        (StrReplace st path oldS newS).1 = Except.ok () ∧
        ∃ pre post : List Char,
          content.data = pre ++ oldS.data ++ post ∧
          lookupA path (StrReplace st path oldS newS).2.fs.files =
            some (String.mk (pre ++ newS.data ++ post))) := by
  refine ⟨?_, ?_, ?_⟩ <;> intro h
  · simp [StrReplace, hc, h]
  · have h0 : ¬ countOcc content.data oldS.data = 0 := by omega
    simp [StrReplace, hc, h0, h]
  · have h0 : ¬ countOcc content.data oldS.data = 0 := by omega
    have h1 : ¬ 1 < countOcc content.data oldS.data := by omega
    obtain ⟨pre, post, hdec, hrep⟩ :=
      countOcc_one_replace oldS.data newS.data content.data h
    constructor
    · simp [StrReplace, hc, h0, h1]
    · refine ⟨pre, post, hdec, ?_⟩
      simp [StrReplace, hc, h0, h1, lookupA_setA_self, hrep]

/-- Example server state used by the editor witnesses: one file containing
`hello world`. -/
def emSt1 : EMState :=
  { fs := { files := [("/srv/data/a.txt", "hello world")], dirs := [] },
    backups := [] }

/-- Witness for C5: replacing the unique occurrence of `world` in
`hello world` succeeds. -/
theorem strreplace_cases_witness :
    countOcc "hello world".data "world".data = 1 ∧
      (StrReplace emSt1 "/srv/data/a.txt" "world" "there").1 = Except.ok () :=
  ⟨by decide,
    ((strreplace_cases emSt1 "/srv/data/a.txt" "world" "there" "hello world"
      (by decide)).2.2 (by decide)).1⟩

/-- C6: after a successful `StrReplace` on `path`, `UndoEdit` succeeds,
restores the pre-edit content byte-identically, removes the backup entry, and
a second consecutive `UndoEdit` fails with `NoBackup`. -/
theorem undo_after_strreplace (st : EMState) (path oldS newS content : String)
    (hc : lookupA path st.fs.files = some content)
    (hok : (StrReplace st path oldS newS).1 = Except.ok ()) :
    (UndoEdit (StrReplace st path oldS newS).2 path).1 = Except.ok () ∧
    lookupA path
        (UndoEdit (StrReplace st path oldS newS).2 path).2.fs.files =
      some content ∧
    lookupA path (UndoEdit (StrReplace st path oldS newS).2 path).2.backups =
      none ∧
    (UndoEdit (UndoEdit (StrReplace st path oldS newS).2 path).2 path).1 =
      Except.error FsError.NoBackup := by
  have hshape : (StrReplace st path oldS newS).2 =
      { fs := { st.fs with
          files := setA path
            (String.mk (replaceFirst content.data oldS.data newS.data))
            st.fs.files },
        backups := setA path content st.backups } := by
    by_cases h0 : countOcc content.data oldS.data = 0
    · exfalso
      simp [StrReplace, hc, h0] at hok
    · by_cases h1 : 1 < countOcc content.data oldS.data
      · exfalso
        simp [StrReplace, hc, h0, h1] at hok
      · simp [StrReplace, hc, h0, h1]
  rw [hshape]
  refine ⟨?_, ?_, ?_, ?_⟩ <;>
    simp [UndoEdit, lookupA_setA_self, lookupA_eraseA_self]

/-- Witness for C6: the spec scenario — `hello world`, replace `world` by
`there`, undo restores `hello world`, a second undo fails. -/
theorem undo_after_strreplace_witness :
    (UndoEdit (StrReplace emSt1 "/srv/data/a.txt" "world" "there").2
        "/srv/data/a.txt").1 = Except.ok () ∧
    lookupA "/srv/data/a.txt"
        (UndoEdit (StrReplace emSt1 "/srv/data/a.txt" "world" "there").2
          "/srv/data/a.txt").2.fs.files = some "hello world" ∧
    lookupA "/srv/data/a.txt"
        (UndoEdit (StrReplace emSt1 "/srv/data/a.txt" "world" "there").2
          "/srv/data/a.txt").2.backups = none ∧
    (UndoEdit
        (UndoEdit (StrReplace emSt1 "/srv/data/a.txt" "world" "there").2
          "/srv/data/a.txt").2 "/srv/data/a.txt").1 =
      Except.error FsError.NoBackup :=
  undo_after_strreplace emSt1 "/srv/data/a.txt" "world" "there" "hello world"
    (by decide) (by rfl)

/-- C7: with the current content of the file at `path`, `InsertLine` fails
with `InvalidLine` exactly when the 1-based line number is below 1 (leaving
the state unchanged); for every line number at least 1 it succeeds, and (for a
newline-free inserted text) the lines of the written content are the old
lines with the text inserted at the position clamped to `lineCount + 1`,
subsequent lines shifting down. -/
theorem insert_clamped (st : EMState) (path text content : String)
    (lineNumber : Int) (hc : lookupA path st.fs.files = some content) :
    ((InsertLine st path lineNumber text).1 =
        Except.error FsError.InvalidLine ↔ lineNumber < 1) ∧
    (lineNumber < 1 → (InsertLine st path lineNumber text).2 = st) ∧
    (1 ≤ lineNumber →
      (InsertLine st path lineNumber text).1 = Except.ok () ∧
      ('\n' ∉ text.data →
        ∃ newContent : String,
          lookupA path (InsertLine st path lineNumber text).2.fs.files =
              some newContent ∧
            splitOnNl newContent.data =
              (splitOnNl content.data).take
                  (min lineNumber.toNat
                    ((splitOnNl content.data).length + 1) - 1) ++
                [text.data] ++
                (splitOnNl content.data).drop
                  (min lineNumber.toNat
                    ((splitOnNl content.data).length + 1) - 1))) := by
  by_cases hlt : lineNumber < 1
  · refine ⟨?_, ?_, ?_⟩
    · simp [InsertLine, hc, hlt]
    · intro _
      simp [InsertLine, hc, hlt]
    · intro hge
      omega
  · refine ⟨?_, ?_, ?_⟩
    · simp [InsertLine, hc, hlt]
    · intro hcon
      exact absurd hcon hlt
    · intro _
      constructor
      · simp [InsertLine, hc, hlt]
      · intro hnl
        refine ⟨String.mk (joinNl
            ((splitOnNl content.data).take
                (min lineNumber.toNat
                  ((splitOnNl content.data).length + 1) - 1) ++
              [text.data] ++
              (splitOnNl content.data).drop
                (min lineNumber.toNat
                  ((splitOnNl content.data).length + 1) - 1))), ?_, ?_⟩
        · simp [InsertLine, hc, hlt, lookupA_setA_self]
        · show splitOnNl (joinNl _) = _
          apply splitOnNl_joinNl
          · simp
          · intro s hs
            rcases List.mem_append.mp hs with hs1 | hs2
            · rcases List.mem_append.mp hs1 with hs3 | hs4
              · exact splitOnNl_no_newline content.data s
                  (List.take_subset _ _ hs3)
              · rw [List.mem_singleton.mp hs4]
                exact hnl
            · exact splitOnNl_no_newline content.data s
                (List.drop_subset _ _ hs2)

/-- Example server state for the insert witness: a three-line file. -/
def emSt3 : EMState :=
  { fs := { files := [("/srv/data/a.txt", "a\nb\nc")], dirs := [] },
    backups := [] }

/-- Witness for C7: inserting at line 100 of a 3-line file succeeds (clamped),
and the written content carries the text as line 4. -/
theorem insert_clamped_witness :
    (InsertLine emSt3 "/srv/data/a.txt" 100 "X").1 = Except.ok () ∧
      lookupA "/srv/data/a.txt"
          (InsertLine emSt3 "/srv/data/a.txt" 100 "X").2.fs.files =
        some "a\nb\nc\nX" :=
  ⟨(insert_clamped emSt3 "/srv/data/a.txt" "X" "a\nb\nc" 100
      (by decide)).2.2 (by decide) |>.1,
    by decide⟩

/-- C8: a successful `WriteFile` of content `c` at a path validly inside an
allowed root, followed by `ReadFile` of the same path, returns exactly
`c`. -/
theorem write_read_roundtrip (sb : Sandbox) (f : String → String)
    (fs fs2 : FS) (p c : String)
    (h : WriteFile sb f fs p c = Except.ok fs2) :
    ReadFile sb f fs2 p = Except.ok c := by
  unfold WriteFile at h
  cases hr : resolveCheck sb f p with
  | error e =>
      rw [hr] at h
      cases h
  | ok rp =>
      rw [hr] at h
      by_cases hd : rp.path ∈ fs.dirs
      · simp [hd] at h
      · simp only [List.elem_eq_mem, hd, decide_False, Bool.false_eq_true,
          if_false, Except.ok.injEq] at h
        subst h
        unfold ReadFile
        rw [hr]
        simp [hd, lookupA_setA_self]

/-- Witness for C8: writing `hello world` to `/srv/data/a.txt` inside root
`/srv/data` and reading it back returns `hello world`. -/
theorem write_read_roundtrip_witness :
    ReadFile sandboxSrv (fun s => s)
        { files := [("/srv/data/a.txt", "hello world")], dirs := [] }
        "/srv/data/a.txt" = Except.ok "hello world" :=
  write_read_roundtrip sandboxSrv (fun s => s) fs0
    { files := [("/srv/data/a.txt", "hello world")], dirs := [] }
    "/srv/data/a.txt" "hello world" (by rfl)

/-- The single `Except` result that decides the entire response of a tool
branch of `handleToolCall`: for every tool except `read_multiple_files` the
branch wraps exactly one fallible operation (for the editor tools, the path
validation chained with the EditManager call), and the response is an error
response precisely when that one operation fails.  `read_multiple_files` is
`none`: its branch aggregates per-path outcomes instead of consulting a
single result.  The `unknown` default branch is also `none`; it performs no
operation and always answers with an error response. -/
def toolSingleExcept (sb : Sandbox) (f : String → String) (st : EMState) :
    ToolCall → Option (Except FsError Unit)
  | ToolCall.readFile p => some ((ReadFile sb f st.fs p).map fun _ => ())
  | ToolCall.readMultipleFiles _ => none
  | ToolCall.writeFile p c => some ((WriteFile sb f st.fs p c).map fun _ => ())
  | ToolCall.createDirectory p =>
      some ((CreateDirectory sb f st.fs p).map fun _ => ())
  | ToolCall.listDirectory p =>
      some ((ListDirectory sb f st.fs p).map fun _ => ())
  | ToolCall.moveFile s d => some ((MoveFile sb f st.fs s d).map fun _ => ())
  | ToolCall.searchFiles p q =>
      some ((SearchFiles sb f st.fs p q).map fun _ => ())
  | ToolCall.getFileInfo p =>
      some ((GetFileInfo sb f st.fs p).map fun _ => ())
  | ToolCall.listAllowedDirectories => some (Except.ok ())
  | ToolCall.strReplace p o n =>
      some (match ValidatePath sb f p with
        | Except.error e => Except.error e
        | Except.ok vp => (StrReplace st vp o n).1)
  | ToolCall.insert p ln t =>
      some (match ValidatePath sb f p with
        | Except.error e => Except.error e
        | Except.ok vp => (InsertLine st vp ln t).1)
  | ToolCall.undoEdit p =>
      some (match ValidatePath sb f p with
        | Except.error e => Except.error e
        | Except.ok vp => (UndoEdit st vp).1)
  | ToolCall.unknown _ => none

/-- C9: `ReadMultipleFiles` yields one outcome per requested path, each
outcome being exactly the independent `ReadFile` result of that path (a
failure on one path cannot influence or suppress another), and the
`read_multiple_files` tool response is never an error response; it is the
only operation with such partial-failure semantics: every other tool's
response is all-or-nothing, an error exactly when the single fallible
operation its branch wraps fails, and the `unknown` default branch always
answers with a total error. -/
theorem read_multiple_files_independent (sb : Sandbox) (f : String → String)
    (fs : FS) (paths : List String) :
    (ReadMultipleFiles sb f fs paths).length = paths.length ∧
    (∀ i : Nat, (ReadMultipleFiles sb f fs paths)[i]? =
        (paths[i]?).map (readOneOutcome sb f fs)) ∧
    (∀ st : EMState,
        (handleToolCall sb f st
            (ToolCall.readMultipleFiles paths)).response.IsError = false) ∧
    (∀ st : EMState, ∀ tc : ToolCall, ∀ out : Except FsError Unit,
        toolSingleExcept sb f st tc = some out →
        (handleToolCall sb f st tc).response.IsError = !(exceptIsOk out)) ∧
    (∀ st : EMState, ∀ name : String,
        (handleToolCall sb f st (ToolCall.unknown name)).response.IsError =
          true) := by
  refine ⟨List.length_map _ _, ?_, ?_, ?_, ?_⟩
  · intro i
    simp [ReadMultipleFiles, List.getElem?_map]
  · intro st
    simp [handleToolCall, textResponse]
  · intro st tc out hout
    cases tc with
    | readFile p =>
        simp only [toolSingleExcept, Option.some.injEq] at hout
        subst hout
        cases h : ReadFile sb f st.fs p <;>
          simp [handleToolCall, h, Except.map, exceptIsOk, textResponse,
            createErrorResponse]
    | readMultipleFiles ps => simp [toolSingleExcept] at hout
    | writeFile p c =>
        simp only [toolSingleExcept, Option.some.injEq] at hout
        subst hout
        cases h : WriteFile sb f st.fs p c <;>
          simp [handleToolCall, h, Except.map, exceptIsOk, textResponse,
            createErrorResponse]
    | createDirectory p =>
        simp only [toolSingleExcept, Option.some.injEq] at hout
        subst hout
        cases h : CreateDirectory sb f st.fs p <;>
          simp [handleToolCall, h, Except.map, exceptIsOk, textResponse,
            createErrorResponse]
    | listDirectory p =>
        simp only [toolSingleExcept, Option.some.injEq] at hout
        subst hout
        cases h : ListDirectory sb f st.fs p <;>
          simp [handleToolCall, h, Except.map, exceptIsOk, textResponse,
            createErrorResponse]
    | moveFile s d =>
        simp only [toolSingleExcept, Option.some.injEq] at hout
        subst hout
        cases h : MoveFile sb f st.fs s d <;>
          simp [handleToolCall, h, Except.map, exceptIsOk, textResponse,
            createErrorResponse]
    | searchFiles p q =>
        simp only [toolSingleExcept, Option.some.injEq] at hout
        subst hout
        cases h : SearchFiles sb f st.fs p q <;>
          simp [handleToolCall, h, Except.map, exceptIsOk, textResponse,
            createErrorResponse]
    | getFileInfo p =>
        simp only [toolSingleExcept, Option.some.injEq] at hout
        subst hout
        cases h : GetFileInfo sb f st.fs p <;>
          simp [handleToolCall, h, Except.map, exceptIsOk, textResponse,
            createErrorResponse]
    | listAllowedDirectories =>
        simp only [toolSingleExcept, Option.some.injEq] at hout
        subst hout
        simp [handleToolCall, exceptIsOk, textResponse]
    | strReplace p o n =>
        simp only [toolSingleExcept, Option.some.injEq] at hout
        subst hout
        cases hv : ValidatePath sb f p with
        | error e =>
            simp [handleToolCall, hv, exceptIsOk, createErrorResponse]
        | ok vp =>
            rcases hs : StrReplace st vp o n with ⟨res, st2⟩
            cases res <;>
              simp [handleToolCall, hv, hs, exceptIsOk, textResponse,
                createErrorResponse]
    | insert p ln t =>
        simp only [toolSingleExcept, Option.some.injEq] at hout
        subst hout
        cases hv : ValidatePath sb f p with
        | error e =>
            simp [handleToolCall, hv, exceptIsOk, createErrorResponse]
        | ok vp =>
            rcases hs : InsertLine st vp ln t with ⟨res, st2⟩
            cases res <;>
              simp [handleToolCall, hv, hs, exceptIsOk, textResponse,
                createErrorResponse]
    | undoEdit p =>
        simp only [toolSingleExcept, Option.some.injEq] at hout
        subst hout
        cases hv : ValidatePath sb f p with
        | error e =>
            simp [handleToolCall, hv, exceptIsOk, createErrorResponse]
        | ok vp =>
            rcases hs : UndoEdit st vp with ⟨res, st2⟩
            cases res <;>
              simp [handleToolCall, hv, hs, exceptIsOk, textResponse,
                createErrorResponse]
    | unknown name => simp [toolSingleExcept] at hout
  · intro st name
    simp [handleToolCall, createErrorResponse]

/-- Witness for C9: a `write_file` aimed outside the sandbox is all-or-nothing
— its single underlying operation fails, so the whole response is an error
response. -/
theorem read_multiple_files_independent_witness :
    (handleToolCall sandboxSrv (fun s => s) emSt1
        (ToolCall.writeFile "/etc/passwd" "x")).response.IsError =
      !(exceptIsOk
        (Except.error FsError.PathOutsideSandbox : Except FsError Unit)) :=
  (read_multiple_files_independent sandboxSrv (fun s => s) emSt1.fs
      []).2.2.2.1 emSt1 (ToolCall.writeFile "/etc/passwd" "x")
    (Except.error FsError.PathOutsideSandbox) (by rfl)

/-- C10: for every params payload, the backward-compatibility methods
`list_tools` and `call_tool` dispatch to exactly the same handler behaviour
as `tools/list` and `tools/call`: their registered handlers delegate to the
handler registered for the modern name, so the two method names are
observationally equivalent. -/
theorem legacy_methods_equivalent (sb : Sandbox) (f : String → String)
    (st : EMState) (params : ToolCall) :
    dispatchMethod sb f st "list_tools" params =
        dispatchMethod sb f st "tools/list" params ∧
      dispatchMethod sb f st "call_tool" params =
        dispatchMethod sb f st "tools/call" params :=
  ⟨rfl, rfl⟩

/-- C2: every EditManager invocation made by `handleToolCall` carries a path
obtained from a successful `ValidatePath` on the tool call's path argument;
when the validation of an editor tool's path fails, the dispatch returns an
error response and EditManager is not invoked at all. -/
theorem dispatch_validates_edit_paths (sb : Sandbox) (f : String → String)
    (st : EMState) (tc : ToolCall) :
    (∀ c ∈ (handleToolCall sb f st tc).emCalls,
        ∃ raw, editPathArg tc = some raw ∧
          ValidatePath sb f raw = Except.ok (EMCall.path c)) ∧
    (∀ raw, editPathArg tc = some raw →
        exceptIsOk (ValidatePath sb f raw) = false →
        (handleToolCall sb f st tc).response.IsError = true ∧
          (handleToolCall sb f st tc).emCalls = []) := by
  cases tc with
  | readFile path =>
      refine ⟨?_, by intro raw hraw; simp [editPathArg] at hraw⟩
      intro c hc
      cases h : ReadFile sb f st.fs path <;> simp [handleToolCall, h] at hc
  | readMultipleFiles paths =>
      refine ⟨?_, by intro raw hraw; simp [editPathArg] at hraw⟩
      intro c hc
      simp [handleToolCall] at hc
  | writeFile path content =>
      refine ⟨?_, by intro raw hraw; simp [editPathArg] at hraw⟩
      intro c hc
      cases h : WriteFile sb f st.fs path content <;>
        simp [handleToolCall, h] at hc
  | createDirectory path =>
      refine ⟨?_, by intro raw hraw; simp [editPathArg] at hraw⟩
      intro c hc
      cases h : CreateDirectory sb f st.fs path <;>
        simp [handleToolCall, h] at hc
  | listDirectory path =>
      refine ⟨?_, by intro raw hraw; simp [editPathArg] at hraw⟩
      intro c hc
      cases h : ListDirectory sb f st.fs path <;>
        simp [handleToolCall, h] at hc
  | moveFile src dst =>
      refine ⟨?_, by intro raw hraw; simp [editPathArg] at hraw⟩
      intro c hc
      cases h : MoveFile sb f st.fs src dst <;>
        simp [handleToolCall, h] at hc
  | searchFiles path pat =>
      refine ⟨?_, by intro raw hraw; simp [editPathArg] at hraw⟩
      intro c hc
      cases h : SearchFiles sb f st.fs path pat <;>
        simp [handleToolCall, h] at hc
  | getFileInfo path =>
      refine ⟨?_, by intro raw hraw; simp [editPathArg] at hraw⟩
      intro c hc
      cases h : GetFileInfo sb f st.fs path <;>
        simp [handleToolCall, h] at hc
  | listAllowedDirectories =>
      refine ⟨?_, by intro raw hraw; simp [editPathArg] at hraw⟩
      intro c hc
      simp [handleToolCall] at hc
  | unknown name =>
      refine ⟨?_, by intro raw hraw; simp [editPathArg] at hraw⟩
      intro c hc
      simp [handleToolCall] at hc
  | strReplace path oldS newS =>
      constructor
      · intro c hc
        cases hv : ValidatePath sb f path with
        | error e => simp [handleToolCall, hv] at hc
        | ok vp =>
            refine ⟨path, rfl, ?_⟩
            rcases hs : StrReplace st vp oldS newS with ⟨res, st2⟩
            cases res <;> simp [handleToolCall, hv, hs] at hc <;>
              simp [hc, EMCall.path, hv]
      · intro raw hraw hfail
        have hraw2 : path = raw := by
          simpa [editPathArg] using hraw
        subst hraw2
        cases hv : ValidatePath sb f path with
        | error e => simp [handleToolCall, hv, createErrorResponse]
        | ok vp => rw [hv] at hfail; simp [exceptIsOk] at hfail
  | insert path lineNumber text =>
      constructor
      · intro c hc
        cases hv : ValidatePath sb f path with
        | error e => simp [handleToolCall, hv] at hc
        | ok vp =>
            refine ⟨path, rfl, ?_⟩
            rcases hs : InsertLine st vp lineNumber text with ⟨res, st2⟩
            cases res <;> simp [handleToolCall, hv, hs] at hc <;>
              simp [hc, EMCall.path, hv]
      · intro raw hraw hfail
        have hraw2 : path = raw := by
          simpa [editPathArg] using hraw
        subst hraw2
        cases hv : ValidatePath sb f path with
        | error e => simp [handleToolCall, hv, createErrorResponse]
        | ok vp => rw [hv] at hfail; simp [exceptIsOk] at hfail
  | undoEdit path =>
      constructor
      · intro c hc
        cases hv : ValidatePath sb f path with
        | error e => simp [handleToolCall, hv] at hc
        | ok vp =>
            refine ⟨path, rfl, ?_⟩
            rcases hs : UndoEdit st vp with ⟨res, st2⟩
            cases res <;> simp [handleToolCall, hv, hs] at hc <;>
              simp [hc, EMCall.path, hv]
      · intro raw hraw hfail
        have hraw2 : path = raw := by
          simpa [editPathArg] using hraw
        subst hraw2
        cases hv : ValidatePath sb f path with
        | error e => simp [handleToolCall, hv, createErrorResponse]
        | ok vp => rw [hv] at hfail; simp [exceptIsOk] at hfail

/-- Witness for C2: a `str_replace` on `/etc/passwd` against root `/srv/data`
fails validation, the dispatch answers with an error response and EditManager
receives no call. -/
theorem dispatch_validates_edit_paths_witness :
    (handleToolCall sandboxSrv (fun s => s) emSt1
        (ToolCall.strReplace "/etc/passwd" "a" "b")).response.IsError = true ∧
      (handleToolCall sandboxSrv (fun s => s) emSt1
        (ToolCall.strReplace "/etc/passwd" "a" "b")).emCalls = [] :=
  (dispatch_validates_edit_paths sandboxSrv (fun s => s) emSt1
      (ToolCall.strReplace "/etc/passwd" "a" "b")).2
    "/etc/passwd" rfl (by decide)
